import Mathlib

/-!
Verification development for the DriveAssist driver-behavior repository.

The shipped sources are the React dashboard (FeedbackContext, Home,
BrakeChecking, LaneChangeDetection, FeedbackHistory).  The real-time
inference pipeline (sensor reader, sliding window buffer, feature
extractor, classifier adapter, decision policy) is described by the
specification and the backend README but its scripts are not among the
shipped sources; those parts are modelled from the specification and
are marked as such in their doc comments.

Numbers are embedded as rationals; JS string keys as Lean strings.
-/

namespace DriverAssist

/-! ## Dashboard data model (from FeedbackContext.jsx and module pages) -/

/-- One feedback event as stored by the dashboard. JS events are JSON
objects; the dedup key is built from the stringified id and timestamp,
so both are embedded as strings. -/
structure FBEvent where
  id : String
  timestamp : String
deriving DecidableEq, Repr

/-- The dedup key from FeedbackContext.jsx line 21:
key = id, a dash, then timestamp (template literal stringification). -/
def eventKey (e : FBEvent) : String := e.id ++ "-" ++ e.timestamp

/-- The reduce in FeedbackContext.jsx lines 20-27: walk the saved list,
keep an event when its key has not been seen, else drop it. -/
def dedupAux : List FBEvent → List String → List FBEvent
  | [], _ => []
  | e :: rest, seen =>
      if eventKey e ∈ seen then dedupAux rest seen
      else e :: dedupAux rest (eventKey e :: seen)

/-- Deduplication of the saved feedback history on initial load
(FeedbackContext.jsx lines 14-32). -/
def dedupEvents (events : List FBEvent) : List FBEvent := dedupAux events []

/-- Per-module event push from FeedbackContext.jsx line 103 and
LaneChangeDetection line 51: prepend the new event, keep the first 10. -/
def pushModuleEvent (ev : FBEvent) (l : List FBEvent) : List FBEvent :=
  (ev :: l).take 10

/-- Module states as a map from module name to its event list; the JS
object access with a fallback to the empty list is the total function. -/
def ModuleStates : Type := String → List FBEvent

/-- Initial module states (FeedbackContext.jsx lines 40-44): every
module starts with an empty list. -/
def initModuleStates : ModuleStates := fun _ => []

/-- Processing one event for one module (FeedbackContext.jsx
setModuleStates updater, lines 98-109): the named module gets the new
event prepended and the list clipped to 10; other modules are untouched. -/
def processEvent (st : ModuleStates) (m : String) (ev : FBEvent) : ModuleStates :=
  fun m2 => if m2 = m then pushModuleEvent ev (st m) else st m2

/-- Folding a whole stream of (module, event) pairs through the handler. -/
def processAll (evs : List (String × FBEvent)) : ModuleStates :=
  evs.foldl (fun st p => processEvent st p.1 p.2) initModuleStates

/-! ## Severity functions (LaneChangeDetection.jsx and Home.jsx) -/

/-- getSeverity from LaneChangeDetection.jsx lines 70-74:
high when the signal was not used or the score is below 50,
medium below 70, low otherwise. -/
def getSeverity (score : ℚ) (signalUsed : Bool) : String :=
  if signalUsed = false ∨ score < 50 then "high"
  else if score < 70 then "medium"
  else "low"

/-- getSeverityBadge color lookup from Home.jsx lines 62-74: the colors
object has exactly the keys high, moderate, low; any other severity
string reads as undefined (none). -/
def severityBadgeColor (severity : String) : Option String :=
  if severity = "high" then some "bg-red-100 text-red-800 border-red-300"
  else if severity = "moderate" then some "bg-yellow-100 text-yellow-800 border-yellow-300"
  else if severity = "low" then some "bg-green-100 text-green-800 border-green-300"
  else none

/-! ## Decision Policy (spec sections 4.5 and 8)

The realtime scripts named by the backend README are not among the
shipped sources, so the Decision Policy is modelled from the spec. -/

/-- Modelled from the spec: the closed set of behavior classes produced
by the classifier (missing source Scripts/real_time_imu.py). -/
inductive BClass
  | normal
  | moderate
  | aggressive
  | dangerous
deriving DecidableEq, Repr, Fintype

/-- Modelled from the spec: severity order of the classes, Normal least
severe, Dangerous most severe (missing source Scripts/real_time_imu.py). -/
def sevRank : BClass → Nat
  | .normal => 0
  | .moderate => 1
  | .aggressive => 2
  | .dangerous => 3

/-- Modelled from the spec: the fixed state-to-severity mapping of
section 4.5, Normal to low, Moderate to moderate, Aggressive and
Dangerous to high (missing source Scripts/real_time_imu.py). -/
def severityOf : BClass → String
  | .normal => "low"
  | .moderate => "moderate"
  | .aggressive => "high"
  | .dangerous => "high"

/-- A classifier output: top class and its confidence. -/
structure Prediction where
  cls : BClass
  conf : ℚ
deriving DecidableEq, Repr

/-- Policy configuration: confidence threshold, debounce count K and
the staleness threshold, all fixed at startup. -/
structure PolicyConfig where
  threshold : ℚ
  debounceK : Nat
  staleThreshold : Nat
deriving DecidableEq, Repr

/-- Decision Policy state: accepted class (none is the Holding state
before any confident prediction), the pending less-severe class with
its consecutive count, and the missed-cycle counter. -/
structure PolicyState where
  accepted : Option BClass
  pendingCls : Option BClass
  pendingCount : Nat
  missed : Nat
deriving DecidableEq, Repr

/-- Initial policy state: Holding, nothing pending, no missed cycles. -/
def initPolicyState : PolicyState := ⟨none, none, 0, 0⟩

/-- Modelled from the spec (section 4.5, missing source
Scripts/real_time_imu.py): on a new Prediction below the threshold the
policy remains in the current state; on a confident prediction the
first confident class is accepted, the same class re-confirms, a more
severe class fires immediately, and a less severe class is accepted
only once K consecutive confident predictions of it have been seen. -/
def stepPred (cfg : PolicyConfig) (st : PolicyState) (p : Prediction) : PolicyState :=
  if p.conf < cfg.threshold then st
  else
    match st.accepted with
    | none => ⟨some p.cls, none, 0, 0⟩
    | some a =>
        if p.cls = a then ⟨some a, none, 0, 0⟩
        else if sevRank a < sevRank p.cls then ⟨some p.cls, none, 0, 0⟩
        else
          let cnt := if st.pendingCls = some p.cls then st.pendingCount + 1 else 1
          if cfg.debounceK ≤ cnt then ⟨some p.cls, none, 0, 0⟩
          else ⟨some a, some p.cls, cnt, 0⟩

/-- Modelled from the spec (section 4.5): an InferenceError is no new
Prediction this cycle; the policy holds its state and increments the
missed-cycle counter. -/
def stepErr (st : PolicyState) : PolicyState :=
  { st with missed := st.missed + 1 }

/-- n consecutive InferenceError cycles. -/
def errSteps : Nat → PolicyState → PolicyState
  | 0, st => st
  | n + 1, st => errSteps n (stepErr st)

/-- The Verdict emitted each cycle: accepted state, severity tier and
the staleness flag. -/
structure Verdict where
  accepted : Option BClass
  severity : String
  stale : Bool
deriving DecidableEq, Repr

/-- Modelled from the spec (sections 4.5 and 8): the Verdict carries
the accepted state, the severity from the fixed mapping (low while
still Holding), and is flagged stale once the missed-cycle counter has
reached the staleness threshold. -/
def mkVerdict (cfg : PolicyConfig) (st : PolicyState) : Verdict :=
  { accepted := st.accepted
    severity :=
      match st.accepted with
      | some c => severityOf c
      | none => "low"
    stale := decide (cfg.staleThreshold ≤ st.missed) }

/-- Accepted-state trace of a run of predictions. -/
def policyOutputs (cfg : PolicyConfig) (st : PolicyState) :
    List Prediction → List (Option BClass)
  | [] => []
  | p :: rest =>
      let st2 := stepPred cfg st p
      st2.accepted :: policyOutputs cfg st2 rest

/-- Default configuration from the spec: threshold 0.70, K = 3,
staleness threshold 3. -/
def defaultPolicyConfig : PolicyConfig := ⟨7 / 10, 3, 3⟩

/-- State after j consecutive confident predictions of class c starting
from a freshly accepted class a. -/
def confSteps (cfg : PolicyConfig) (a c : BClass) : Nat → PolicyState
  | 0 => ⟨some a, none, 0, 0⟩
  | j + 1 => stepPred cfg (confSteps cfg a c j) ⟨c, 1⟩

/-! ## Sliding Window Buffer (spec sections 3, 4.2 and 8)

The realtime scripts named by the backend README are not among the
shipped sources, so the buffer is modelled from the spec. -/

/-- Modelled from the spec: one timestamped 6-axis motion sample, three
linear-acceleration and three angular-velocity components (missing
source Scripts/real_time_imu.py). -/
structure Sample where
  t : ℚ
  ax : ℚ
  ay : ℚ
  az : ℚ
  gx : ℚ
  gy : ℚ
  gz : ℚ
deriving DecidableEq, Repr

/-- Buffer configuration: window length N, stride and the maximal
allowed timestamp gap, fixed at startup. -/
structure SWConfig where
  N : Nat
  stride : Nat
  maxGap : ℚ
deriving DecidableEq, Repr

/-- The adjacency constraint between consecutive pushed samples: the
timestamp does not regress and the gap does not exceed maxGap. -/
def okStep (cfg : SWConfig) (prev s : Sample) : Prop :=
  prev.t ≤ s.t ∧ s.t - prev.t ≤ cfg.maxGap

instance (cfg : SWConfig) (prev s : Sample) : Decidable (okStep cfg prev s) := by
  unfold okStep
  infer_instance

/-- Append one sample to the accumulating buffer; when the buffer
reaches N the window is sealed and emitted and the last N - stride
samples are retained for the next window. -/
def appendSeal (cfg : SWConfig) (buf : List Sample) (s : Sample) :
    List Sample × Option (List Sample) :=
  let b2 := buf ++ [s]
  if b2.length = cfg.N then (b2.drop cfg.stride, some b2) else (b2, none)

/-- Modelled from the spec (section 4.2, missing source
Scripts/real_time_imu.py): push one sample.  A timestamp regression or
a gap exceeding maxGap relative to the last buffered sample discards
the current partial contents and restarts accumulation with the new
sample; otherwise the sample is appended and the window is sealed when
the buffer reaches the configured window length. -/
def pushSample (cfg : SWConfig) (buf : List Sample) (s : Sample) :
    List Sample × Option (List Sample) :=
  match buf.getLast? with
  | some prev =>
      if okStep cfg prev s then appendSeal cfg buf s else ([s], none)
  | none => appendSeal cfg buf s

/-- Run the buffer over a stream of samples, collecting the sealed
windows in emission order. -/
def runBuffer (cfg : SWConfig) : List Sample → List Sample → List Sample × List (List Sample)
  | buf, [] => (buf, [])
  | buf, s :: rest =>
      let r := pushSample cfg buf s
      let r2 := runBuffer cfg r.1 rest
      (r2.1, r.2.toList ++ r2.2)

/-- A sample with the given timestamp and all six axes at rest. -/
def mkSample (t : ℚ) : Sample := ⟨t, 0, 0, 0, 0, 0, 0⟩

/-! ## Feature Extractor (spec sections 4.3 and 8)

The realtime scripts named by the backend README are not among the
shipped sources, so the extractor is modelled from the spec.  A
division fault is modelled by the guarded division returning none, so
extract returning some models the absence of NaN/Inf entries. -/

/-- Guarded division: none on a zero denominator (a division fault). -/
def safeDiv (a b : ℚ) : Option ℚ := if b = 0 then none else some (a / b)

/-- Successive differences of a signal (discrete jerk). -/
def diffs : List ℚ → List ℚ
  | x :: y :: rest => (y - x) :: diffs (y :: rest)
  | _ => []

/-- Smallest value of a nonempty signal. -/
def minQ : List ℚ → Option ℚ
  | [] => none
  | x :: xs => some (xs.foldl min x)

/-- Largest value of a nonempty signal. -/
def maxQ : List ℚ → Option ℚ
  | [] => none
  | x :: xs => some (xs.foldl max x)

/-- Time-domain features of one axis: mean, variance, min, max, mean
signal energy, and jerk energy (mean squared successive difference). -/
structure AxisFeatures where
  mean : ℚ
  variance : ℚ
  minv : ℚ
  maxv : ℚ
  energy : ℚ
  jerkEnergy : ℚ
deriving DecidableEq, Repr

/-- Modelled from the spec (section 4.3, missing source
Scripts/real_time_imu.py): per-axis time-domain statistics with the
two-pass mean/variance formula, every division guarded. -/
def extractAxis (l : List ℚ) : Option AxisFeatures := do
  let m ← safeDiv l.sum (l.length : ℚ)
  let v ← safeDiv ((l.map (fun x => (x - m) ^ 2)).sum) (l.length : ℚ)
  let mn ← minQ l
  let mx ← maxQ l
  let e ← safeDiv ((l.map (fun x => x ^ 2)).sum) (l.length : ℚ)
  let j ← safeDiv (((diffs l).map (fun x => x ^ 2)).sum) (l.length : ℚ)
  pure ⟨m, v, mn, mx, e, j⟩

/-- The FeatureVector: one feature block per axis, in the fixed axis
order ax, ay, az, gx, gy, gz. -/
structure FeatureVector where
  fax : AxisFeatures
  fay : AxisFeatures
  faz : AxisFeatures
  fgx : AxisFeatures
  fgy : AxisFeatures
  fgz : AxisFeatures
deriving DecidableEq, Repr

/-- Modelled from the spec (section 4.3, missing source
Scripts/real_time_imu.py): extract computes the per-axis feature
blocks of a window in the fixed axis order. -/
def extract (w : List Sample) : Option FeatureVector := do
  let a1 ← extractAxis (w.map Sample.ax)
  let a2 ← extractAxis (w.map Sample.ay)
  let a3 ← extractAxis (w.map Sample.az)
  let g1 ← extractAxis (w.map Sample.gx)
  let g2 ← extractAxis (w.map Sample.gy)
  let g3 ← extractAxis (w.map Sample.gz)
  pure ⟨a1, a2, a3, g1, g2, g3⟩

/-! ## Helper lemmas for the dashboard model -/

lemma length_pushModuleEvent_le (ev : FBEvent) (l : List FBEvent) :
    (pushModuleEvent ev l).length ≤ 10 := by
  simp [pushModuleEvent]

lemma head_pushModuleEvent (ev : FBEvent) (l : List FBEvent) :
    (pushModuleEvent ev l).head? = some ev := by
  simp [pushModuleEvent]

lemma processEvent_length_le (st : ModuleStates) (m : String) (ev : FBEvent)
    (m2 : String) (h : (st m2).length ≤ 10) :
    (processEvent st m ev m2).length ≤ 10 := by
  unfold processEvent
  split_ifs
  · exact length_pushModuleEvent_le ev (st m)
  · exact h

lemma foldl_processEvent_bound :
    ∀ (evs : List (String × FBEvent)) (st : ModuleStates),
      (∀ m, (st m).length ≤ 10) →
      ∀ m, ((evs.foldl (fun s p => processEvent s p.1 p.2) st) m).length ≤ 10 := by
  intro evs
  induction evs with
  | nil => intro st h m; exact h m
  | cons p rest ih =>
      intro st h m
      exact ih _ (fun m2 => processEvent_length_le st p.1 p.2 m2 (h m2)) m

lemma dedupAux_sublist : ∀ (l : List FBEvent) (seen : List String),
    (dedupAux l seen).Sublist l := by
  intro l
  induction l with
  | nil => intro seen; simp [dedupAux]
  | cons e rest ih =>
      intro seen
      unfold dedupAux
      split_ifs
      · exact (ih seen).cons e
      · exact (ih (eventKey e :: seen)).cons₂ e

lemma key_not_seen_of_mem_dedupAux :
    ∀ (l : List FBEvent) (seen : List String) (e : FBEvent),
      e ∈ dedupAux l seen → eventKey e ∉ seen := by
  intro l
  induction l with
  | nil => intro seen e h; simp [dedupAux] at h
  | cons a rest ih =>
      intro seen e h
      unfold dedupAux at h
      split_ifs at h with ha
      · exact ih seen e h
      · rcases List.mem_cons.mp h with h | h
        · subst h; exact ha
        · intro hs
          exact ih (eventKey a :: seen) e h (List.mem_cons_of_mem _ hs)

lemma dedupAux_pairwise_key : ∀ (l : List FBEvent) (seen : List String),
    (dedupAux l seen).Pairwise (fun a b => eventKey a ≠ eventKey b) := by
  intro l
  induction l with
  | nil => intro seen; simp [dedupAux]
  | cons a rest ih =>
      intro seen
      unfold dedupAux
      split_ifs with ha
      · exact ih seen
      · refine List.Pairwise.cons ?_ (ih (eventKey a :: seen))
        intro b hb hab
        exact key_not_seen_of_mem_dedupAux rest (eventKey a :: seen) b hb
          (by rw [← hab]; exact List.mem_cons_self _ _)

lemma dedupAux_find : ∀ (l : List FBEvent) (seen : List String) (e : FBEvent),
    e ∈ dedupAux l seen →
    l.find? (fun x => eventKey x == eventKey e) = some e := by
  intro l
  induction l with
  | nil => intro seen e h; simp [dedupAux] at h
  | cons a rest ih =>
      intro seen e h
      unfold dedupAux at h
      split_ifs at h with ha
      · have hkey : eventKey e ∉ seen := key_not_seen_of_mem_dedupAux rest seen e h
        have hne : eventKey a ≠ eventKey e := fun hc => hkey (hc ▸ ha)
        rw [List.find?_cons_of_neg _ (by simpa using hne)]
        exact ih seen e h
      · rcases List.mem_cons.mp h with h | h
        · subst h
          exact List.find?_cons_of_pos _ (by simp)
        · have hkey : eventKey e ∉ eventKey a :: seen :=
            key_not_seen_of_mem_dedupAux rest (eventKey a :: seen) e h
          have hne : eventKey a ≠ eventKey e :=
            fun hc => hkey (hc ▸ List.mem_cons_self _ _)
          rw [List.find?_cons_of_neg _ (by simpa using hne)]
          exact ih (eventKey a :: seen) e h

lemma dedupAux_cover : ∀ (l : List FBEvent) (seen : List String) (e : FBEvent),
    e ∈ l →
    eventKey e ∈ seen ∨ ∃ e2 ∈ dedupAux l seen, eventKey e2 = eventKey e := by
  intro l
  induction l with
  | nil => intro seen e h; simp at h
  | cons a rest ih =>
      intro seen e h
      unfold dedupAux
      rcases List.mem_cons.mp h with h | h
      · subst h
        by_cases ha : eventKey e ∈ seen
        · exact Or.inl ha
        · refine Or.inr ⟨e, ?_, rfl⟩
          rw [if_neg ha]
          exact List.mem_cons_self _ _
      · by_cases ha : eventKey a ∈ seen
        · rw [if_pos ha]
          exact ih seen e h
        · rw [if_neg ha]
          rcases ih (eventKey a :: seen) e h with hs | ⟨e2, he2, hk⟩
          · rcases List.mem_cons.mp hs with hs | hs
            · exact Or.inr ⟨a, List.mem_cons_self _ _, hs.symm⟩
            · exact Or.inl hs
          · exact Or.inr ⟨e2, List.mem_cons_of_mem _ he2, hk⟩

/-! ## Claim theorems about the dashboard code -/

/-- C8: the Lane Change Detection severity function is total on its
inputs (always one of high, medium, low); it returns high whenever the
turn signal was not used or the safety score is below 50, medium when
the signal was used and the score is at least 50 but below 70, and low
otherwise; in particular it emits the value medium, which the dashboard
badge vocabulary (high, moderate, low) does not contain. -/
theorem C8_lane_severity :
    (∀ (score : ℚ) (signalUsed : Bool),
      getSeverity score signalUsed ∈ ["high", "medium", "low"] ∧
      ((signalUsed = false ∨ score < 50) → getSeverity score signalUsed = "high") ∧
      (signalUsed = true → 50 ≤ score → score < 70 →
        getSeverity score signalUsed = "medium") ∧
      (signalUsed = true → 70 ≤ score → getSeverity score signalUsed = "low")) ∧
    severityBadgeColor "medium" = none ∧
    (severityBadgeColor "high").isSome = true ∧
    (severityBadgeColor "moderate").isSome = true ∧
    (severityBadgeColor "low").isSome = true := by
  refine ⟨?_, by decide, by decide, by decide, by decide⟩
  intro score signalUsed
  refine ⟨?_, ?_, ?_, ?_⟩
  · unfold getSeverity
    split_ifs <;> simp
  · intro h
    unfold getSeverity
    rw [if_pos h]
  · intro hs h50 h70
    unfold getSeverity
    rw [if_neg (by simp [hs, not_lt.mpr h50]), if_pos h70]
  · intro hs h70
    unfold getSeverity
    have h50 : (50 : ℚ) ≤ score := le_trans (by norm_num) h70
    rw [if_neg (by simp [hs, not_lt.mpr h50]), if_neg (not_lt.mpr h70)]

/-- Witness for C8 at concrete inputs: score 60 with the signal used is
medium; score 40 with the signal used is high; score 85 with the signal
used is low. -/
theorem C8_lane_severity_witness :
    getSeverity 60 true = "medium" ∧ getSeverity 40 true = "high" ∧
    getSeverity 85 true = "low" :=
  ⟨(C8_lane_severity.1 60 true).2.2.1 rfl (by norm_num) (by norm_num),
   (C8_lane_severity.1 40 true).2.1 (Or.inr (by norm_num)),
   (C8_lane_severity.1 85 true).2.2.2 rfl (by norm_num)⟩

/-- C9: every per-module event list kept by the feedback state is
bounded: the per-event update clips the touched module to at most 10
events with the newest first, a module list that was within the bound
stays within it, and after processing any stream of events from the
initial state every module list holds at most 10 events. -/
theorem C9_module_lists_bounded :
    (∀ (ev : FBEvent) (l : List FBEvent),
      (pushModuleEvent ev l).length ≤ 10 ∧
      (pushModuleEvent ev l).head? = some ev) ∧
    (∀ (st : ModuleStates) (m : String) (ev : FBEvent) (m2 : String),
      (st m2).length ≤ 10 → (processEvent st m ev m2).length ≤ 10) ∧
    (∀ (evs : List (String × FBEvent)) (m : String),
      ((processAll evs) m).length ≤ 10) := by
  refine ⟨fun ev l => ⟨length_pushModuleEvent_le ev l, head_pushModuleEvent ev l⟩,
    fun st m ev m2 h => processEvent_length_le st m ev m2 h, fun evs m => ?_⟩
  exact foldl_processEvent_bound evs initModuleStates (fun _ => by simp [initModuleStates]) m

/-- Witness for C9: processing one concrete event over the initial
module states keeps every list within the bound. -/
theorem C9_module_lists_bounded_witness :
    (processEvent initModuleStates "Brake Checking" ⟨"1", "t"⟩ "Speed Monitoring").length ≤ 10 :=
  C9_module_lists_bounded.2.1 initModuleStates "Brake Checking" ⟨"1", "t"⟩
    "Speed Monitoring" (by simp [initModuleStates])

/-- C10 as stated is false: the dedup key is the string id-dash-timestamp,
so two events with distinct (id, timestamp) pairs can collide.  Here the
event with id "1" and timestamp "2-3" is the first occurrence of its
pair in the saved list, yet it is dropped because its key equals the key
of the earlier event with id "1-2" and timestamp "3". -/
theorem C10_dedup_counterexample :
    (⟨"1", "2-3"⟩ : FBEvent) ∈ [(⟨"1-2", "3"⟩ : FBEvent), ⟨"1", "2-3"⟩] ∧
    (⟨"1-2", "3"⟩ : FBEvent).id ≠ (⟨"1", "2-3"⟩ : FBEvent).id ∧
    dedupEvents [(⟨"1-2", "3"⟩ : FBEvent), ⟨"1", "2-3"⟩] = [⟨"1-2", "3"⟩] ∧
    (∀ x ∈ dedupEvents [(⟨"1-2", "3"⟩ : FBEvent), ⟨"1", "2-3"⟩],
      ¬(x.id = "1" ∧ x.timestamp = "2-3")) := by
  refine ⟨by simp, by simp, by simp [dedupEvents, dedupAux, eventKey], ?_⟩
  intro x hx
  simp [dedupEvents, dedupAux, eventKey] at hx
  subst hx
  simp

/-- C10 amended: the restored feedback history is deduplicated by the
concatenated string key id-dash-timestamp.  The resulting list is a
subsequence of the saved list (original relative order), contains no
two events that agree on both id and timestamp, keeps for each retained
event exactly the first occurrence of its key in the saved list, and
represents every key of the saved list; a saved event whose distinct
(id, timestamp) pair collides with an earlier key may be dropped. -/
theorem C10_dedup_amended :
    ∀ l : List FBEvent,
      (dedupEvents l).Sublist l ∧
      (dedupEvents l).Pairwise (fun a b => ¬(a.id = b.id ∧ a.timestamp = b.timestamp)) ∧
      (∀ e ∈ dedupEvents l, l.find? (fun x => eventKey x == eventKey e) = some e) ∧
      (∀ e ∈ l, ∃ e2 ∈ dedupEvents l, eventKey e2 = eventKey e) := by
  intro l
  refine ⟨dedupAux_sublist l [], ?_, ?_, ?_⟩
  · refine (dedupAux_pairwise_key l []).imp ?_
    intro a b hk hab
    exact hk (by rw [eventKey, eventKey, hab.1, hab.2])
  · intro e he
    exact dedupAux_find l [] e he
  · intro e he
    rcases dedupAux_cover l [] e he with hs | hx
    · simp at hs
    · exact hx

/-- Witness for C10 amended at a concrete two-element saved list with an
exact duplicate pair: the duplicate is dropped, the first kept. -/
theorem C10_dedup_amended_witness :
    dedupEvents [(⟨"7", "t1"⟩ : FBEvent), ⟨"7", "t1"⟩, ⟨"8", "t2"⟩] =
      [⟨"7", "t1"⟩, ⟨"8", "t2"⟩] ∧
    [(⟨"7", "t1"⟩ : FBEvent), ⟨"7", "t1"⟩, ⟨"8", "t2"⟩].find?
      (fun x => eventKey x == eventKey ⟨"7", "t1"⟩) = some ⟨"7", "t1"⟩ := by
  constructor
  · simp [dedupEvents, dedupAux, eventKey]
  · exact (C10_dedup_amended [⟨"7", "t1"⟩, ⟨"7", "t1"⟩, ⟨"8", "t2"⟩]).2.2.1
      ⟨"7", "t1"⟩ (by simp [dedupEvents, dedupAux, eventKey])

/-! ## Helper lemmas for the Decision Policy -/

lemma stepPred_low (cfg : PolicyConfig) (st : PolicyState) (p : Prediction)
    (h : p.conf < cfg.threshold) : stepPred cfg st p = st := by
  unfold stepPred
  rw [if_pos h]

lemma foldl_stepPred_low (cfg : PolicyConfig) :
    ∀ (preds : List Prediction) (st : PolicyState),
      (∀ p ∈ preds, p.conf < cfg.threshold) →
      preds.foldl (stepPred cfg) st = st := by
  intro preds
  induction preds with
  | nil => intro st _; rfl
  | cons p rest ih =>
      intro st h
      have hp : stepPred cfg st p = st :=
        stepPred_low cfg st p (h p (List.mem_cons_self _ _))
      simp only [List.foldl_cons, hp]
      exact ih st (fun q hq => h q (List.mem_cons_of_mem _ hq))

lemma errSteps_accepted_missed :
    ∀ (n : Nat) (st : PolicyState),
      (errSteps n st).accepted = st.accepted ∧
      (errSteps n st).missed = st.missed + n := by
  intro n
  induction n with
  | zero => intro st; exact ⟨rfl, rfl⟩
  | succ k ih =>
      intro st
      have h := ih (stepErr st)
      refine ⟨h.1, ?_⟩
      rw [errSteps, h.2]
      simp [stepErr]
      omega

/-! ## Helper lemmas for the Sliding Window Buffer -/

lemma pushSample_ok (cfg : SWConfig) (buf : List Sample) (s : Sample)
    (h : (buf ++ [s]).Chain' (okStep cfg)) :
    pushSample cfg buf s = appendSeal cfg buf s := by
  unfold pushSample
  cases hl : buf.getLast? with
  | none => rfl
  | some prev =>
      have hok : okStep cfg prev s :=
        (List.chain'_append.mp h).2.2 prev (Option.mem_def.mpr hl) s
          (Option.mem_def.mpr rfl)
      simp [hok]

lemma runBuffer_append (cfg : SWConfig) :
    ∀ (l1 l2 buf : List Sample),
      runBuffer cfg buf (l1 ++ l2) =
        ((runBuffer cfg (runBuffer cfg buf l1).1 l2).1,
          (runBuffer cfg buf l1).2 ++ (runBuffer cfg (runBuffer cfg buf l1).1 l2).2) := by
  intro l1
  induction l1 with
  | nil => intro l2 buf; simp [runBuffer]
  | cons s rest ih =>
      intro l2 buf
      simp only [List.cons_append, runBuffer, List.append_eq]
      rw [ih l2 (pushSample cfg buf s).1]
      simp [List.append_assoc]

lemma runBuffer_seal (cfg : SWConfig) :
    ∀ (l buf : List Sample), l ≠ [] →
      (buf ++ l).Chain' (okStep cfg) →
      (buf ++ l).length = cfg.N →
      runBuffer cfg buf l = ((buf ++ l).drop cfg.stride, [buf ++ l]) := by
  intro l
  induction l with
  | nil => intro buf hne; exact absurd rfl hne
  | cons s rest ih =>
      intro buf _ hch hlen
      have hch2 : ((buf ++ [s]) ++ rest).Chain' (okStep cfg) := by
        simpa [List.append_assoc] using hch
      have hch1 : (buf ++ [s]).Chain' (okStep cfg) := (List.chain'_append.mp hch2).1
      have hps : pushSample cfg buf s = appendSeal cfg buf s :=
        pushSample_ok cfg buf s hch1
      by_cases hrest : rest = []
      · subst hrest
        have hsl : (buf ++ [s]).length = cfg.N := by simpa using hlen
        simp only [runBuffer, hps, appendSeal, if_pos hsl]
        simp [runBuffer]
      · have hrl : 0 < rest.length := List.length_pos.mpr hrest
        have hlen1 : (buf ++ [s]).length ≠ cfg.N := by
          simp only [List.length_append, List.length_cons, List.length_nil] at hlen ⊢
          omega
        simp only [runBuffer, hps, appendSeal, if_neg hlen1]
        have hlen2 : ((buf ++ [s]) ++ rest).length = cfg.N := by
          simpa [List.append_assoc] using hlen
        rw [ih (buf ++ [s]) hrest hch2 hlen2]
        simp [List.append_assoc]

lemma appendSeal_chain (cfg : SWConfig) (buf : List Sample) (s : Sample)
    (hch : (buf ++ [s]).Chain' (okStep cfg)) :
    (∀ w ∈ (appendSeal cfg buf s).2.toList, w.Chain' (okStep cfg)) ∧
    (appendSeal cfg buf s).1.Chain' (okStep cfg) := by
  simp only [appendSeal]
  split_ifs with h
  · refine ⟨?_, hch.drop _⟩
    intro w hw
    simp only [Option.toList_some, List.mem_singleton] at hw
    rw [hw]
    exact hch
  · exact ⟨by simp, hch⟩

lemma runBuffer_windows_chain (cfg : SWConfig) :
    ∀ (l buf : List Sample), buf.Chain' (okStep cfg) →
      (∀ w ∈ (runBuffer cfg buf l).2, w.Chain' (okStep cfg)) ∧
      (runBuffer cfg buf l).1.Chain' (okStep cfg) := by
  intro l
  induction l with
  | nil =>
      intro buf hb
      refine ⟨?_, by simpa [runBuffer] using hb⟩
      intro w hw
      simp [runBuffer] at hw
  | cons s rest ih =>
      intro buf hb
      have step : ((pushSample cfg buf s).1.Chain' (okStep cfg)) ∧
          (∀ w ∈ (pushSample cfg buf s).2.toList, w.Chain' (okStep cfg)) := by
        cases hl : buf.getLast? with
        | none =>
            have hbuf : buf = [] := List.getLast?_eq_none_iff.mp hl
            subst hbuf
            have hred : pushSample cfg [] s = appendSeal cfg [] s := by
              unfold pushSample
              rfl
            have hch : (([] : List Sample) ++ [s]).Chain' (okStep cfg) := by
              simp
            have h2 := appendSeal_chain cfg [] s hch
            rw [hred]
            exact ⟨h2.2, h2.1⟩
        | some prev =>
            have hred : pushSample cfg buf s =
                if okStep cfg prev s then appendSeal cfg buf s else ([s], none) := by
              unfold pushSample
              rw [hl]
            rw [hred]
            split_ifs with hok
            · have hch : (buf ++ [s]).Chain' (okStep cfg) := by
                refine List.chain'_append.mpr ⟨hb, List.chain'_singleton s, ?_⟩
                intro x hx y hy
                have hx2 : x = prev := by
                  rw [Option.mem_def, hl] at hx
                  exact (Option.some_inj.mp hx).symm
                have hy2 : y = s := by
                  rw [Option.mem_def] at hy
                  exact (Option.some_inj.mp hy).symm
                rw [hx2, hy2]
                exact hok
              have h2 := appendSeal_chain cfg buf s hch
              exact ⟨h2.2, h2.1⟩
            · exact ⟨List.chain'_singleton s, by simp⟩
      have hrest := ih (pushSample cfg buf s).1 step.1
      constructor
      · intro w hw
        simp only [runBuffer, List.mem_append] at hw
        rcases hw with hw | hw
        · exact step.2 w hw
        · exact hrest.1 w hw
      · simpa only [runBuffer] using hrest.2

/-! ## Helper lemmas for the Feature Extractor -/

lemma foldl_min_replicate (c : ℚ) : ∀ k, (List.replicate k c).foldl min c = c := by
  intro k
  induction k with
  | zero => rfl
  | succ m ih =>
      rw [List.replicate_succ, List.foldl_cons, min_self]
      exact ih

lemma foldl_max_replicate (c : ℚ) : ∀ k, (List.replicate k c).foldl max c = c := by
  intro k
  induction k with
  | zero => rfl
  | succ m ih =>
      rw [List.replicate_succ, List.foldl_cons, max_self]
      exact ih

lemma minQ_replicate (n : Nat) (hn : 0 < n) (c : ℚ) :
    minQ (List.replicate n c) = some c := by
  cases n with
  | zero => exact absurd hn (lt_irrefl 0)
  | succ k =>
      rw [List.replicate_succ]
      simp only [minQ]
      rw [foldl_min_replicate]

lemma maxQ_replicate (n : Nat) (hn : 0 < n) (c : ℚ) :
    maxQ (List.replicate n c) = some c := by
  cases n with
  | zero => exact absurd hn (lt_irrefl 0)
  | succ k =>
      rw [List.replicate_succ]
      simp only [maxQ]
      rw [foldl_max_replicate]

lemma diffs_replicate (c : ℚ) : ∀ n, diffs (List.replicate n c) = List.replicate (n - 1) 0 := by
  intro n
  induction n with
  | zero => rfl
  | succ k ih =>
      cases k with
      | zero => rfl
      | succ m =>
          have h1 : List.replicate (m + 1 + 1) c = c :: c :: List.replicate m c := by
            rw [List.replicate_succ, List.replicate_succ]
          rw [h1]
          simp only [diffs]
          rw [show (c :: List.replicate m c) = List.replicate (m + 1) c from
            (List.replicate_succ c m).symm]
          rw [show diffs (List.replicate (m + 1) c) = List.replicate (m + 1 - 1) 0 from ih]
          simp [List.replicate_succ, sub_self]

lemma extractAxis_replicate (n : Nat) (hn : 0 < n) (c : ℚ) :
    extractAxis (List.replicate n c) = some ⟨c, 0, c, c, c ^ 2, 0⟩ := by
  have hnQ : ((n : ℚ)) ≠ 0 := Nat.cast_ne_zero.mpr (by omega)
  have hm : safeDiv (List.replicate n c).sum ((List.replicate n c).length : ℚ) =
      some c := by
    rw [List.sum_replicate, List.length_replicate, nsmul_eq_mul]
    simp only [safeDiv, if_neg hnQ]
    rw [mul_div_cancel_left₀ c hnQ]
  have hv : safeDiv (((List.replicate n c).map (fun x => (x - c) ^ 2)).sum)
      ((List.replicate n c).length : ℚ) = some 0 := by
    rw [List.map_replicate, sub_self, List.sum_replicate, List.length_replicate]
    simp only [safeDiv, if_neg hnQ]
    norm_num
  have he : safeDiv (((List.replicate n c).map (fun x => x ^ 2)).sum)
      ((List.replicate n c).length : ℚ) = some (c ^ 2) := by
    rw [List.map_replicate, List.sum_replicate, List.length_replicate, nsmul_eq_mul]
    simp only [safeDiv, if_neg hnQ]
    rw [mul_div_cancel_left₀ _ hnQ]
  have hj : safeDiv (((diffs (List.replicate n c)).map (fun x => x ^ 2)).sum)
      ((List.replicate n c).length : ℚ) = some 0 := by
    rw [diffs_replicate, List.map_replicate, List.sum_replicate, List.length_replicate]
    simp only [safeDiv, if_neg hnQ]
    norm_num
  simp only [extractAxis, hm, hv, minQ_replicate n hn c, maxQ_replicate n hn c, he, hj,
    Option.bind_eq_bind, Option.some_bind]
  rfl

/-! ## Claim theorem about the Feature Extractor (modelled from the spec) -/

/-- C5: on a constant-signal Window (all samples identical) extract
succeeds with no division fault (it returns some FeatureVector; the
guarded divisions model NaN/Inf faults), and in the resulting vector
every spread feature - the variance, the jerk energy and the max-min
range of every axis - is exactly zero. -/
theorem C5_constant_window (w : List Sample) (s0 : Sample) (hne : w ≠ [])
    (hconst : ∀ s ∈ w, s = s0) :
    ∃ fv : FeatureVector, extract w = some fv ∧
      (∀ af ∈ [fv.fax, fv.fay, fv.faz, fv.fgx, fv.fgy, fv.fgz],
        af.variance = 0 ∧ af.jerkEnergy = 0 ∧ af.maxv - af.minv = 0) := by
  have hlen : 0 < w.length := List.length_pos.mpr hne
  have hmap : ∀ f : Sample → ℚ, w.map f = List.replicate w.length (f s0) := by
    intro f
    refine List.eq_replicate_iff.mpr ⟨by simp, ?_⟩
    intro b hb
    rcases List.mem_map.mp hb with ⟨a, ha, hfa⟩
    rw [← hfa, hconst a ha]
  refine ⟨⟨⟨s0.ax, 0, s0.ax, s0.ax, s0.ax ^ 2, 0⟩, ⟨s0.ay, 0, s0.ay, s0.ay, s0.ay ^ 2, 0⟩,
    ⟨s0.az, 0, s0.az, s0.az, s0.az ^ 2, 0⟩, ⟨s0.gx, 0, s0.gx, s0.gx, s0.gx ^ 2, 0⟩,
    ⟨s0.gy, 0, s0.gy, s0.gy, s0.gy ^ 2, 0⟩, ⟨s0.gz, 0, s0.gz, s0.gz, s0.gz ^ 2, 0⟩⟩,
    ?_, ?_⟩
  · simp [extract, hmap, extractAxis_replicate w.length hlen]
  · intro af haf
    simp only [List.mem_cons, List.not_mem_nil, or_false] at haf
    rcases haf with h | h | h | h | h | h <;> subst h <;>
      exact ⟨rfl, rfl, sub_self _⟩

/-- Witness for C5: a two-sample constant window extracts successfully
with all spread features zero. -/
theorem C5_constant_window_witness :
    ∃ fv : FeatureVector, extract [mkSample 1, mkSample 1] = some fv ∧
      (∀ af ∈ [fv.fax, fv.fay, fv.faz, fv.fgx, fv.fgy, fv.fgz],
        af.variance = 0 ∧ af.jerkEnergy = 0 ∧ af.maxv - af.minv = 0) :=
  C5_constant_window [mkSample 1, mkSample 1] (mkSample 1) (by simp)
    (by
      intro s hs
      rcases List.mem_cons.mp hs with h | h
      · exact h
      · simpa using h)

/-! ## Claim theorems about the Sliding Window Buffer (modelled from the spec) -/

/-- C1: for a window length N and stride S with 0 < S ≤ N, pushing
exactly N + S in-order, gap-free samples into the empty buffer yields
exactly two sealed windows of length N, and the first N - S samples of
the second window equal the last N - S samples of the first. -/
theorem C1_two_overlapping_windows (cfg : SWConfig) (hS : 0 < cfg.stride)
    (hSN : cfg.stride ≤ cfg.N) (samples : List Sample)
    (hlen : samples.length = cfg.N + cfg.stride)
    (hgood : samples.Chain' (okStep cfg)) :
    ∃ w1 w2, (runBuffer cfg [] samples).2 = [w1, w2] ∧
      w1.length = cfg.N ∧ w2.length = cfg.N ∧
      w2.take (cfg.N - cfg.stride) = w1.drop cfg.stride := by
  have hN : 0 < cfg.N := lt_of_lt_of_le hS hSN
  have hAB : samples.take cfg.N ++ samples.drop cfg.N = samples :=
    List.take_append_drop _ _
  have hAlen : (samples.take cfg.N).length = cfg.N := by
    rw [List.length_take, hlen]
    exact Nat.min_eq_left (by omega)
  have hBlen : (samples.drop cfg.N).length = cfg.stride := by
    rw [List.length_drop, hlen]
    omega
  have hchA : (samples.take cfg.N).Chain' (okStep cfg) := by
    have h2 := hgood
    rw [← hAB] at h2
    exact (List.chain'_append.mp h2).1
  have hAne : samples.take cfg.N ≠ [] := by
    intro hc
    rw [hc] at hAlen
    simp at hAlen
    omega
  have h1 : runBuffer cfg [] (samples.take cfg.N) =
      ((samples.take cfg.N).drop cfg.stride, [samples.take cfg.N]) := by
    have h2 := runBuffer_seal cfg (samples.take cfg.N) [] hAne
      (by simpa using hchA) (by simpa using hAlen)
    simpa using h2
  have hAd : (samples.take cfg.N).drop cfg.stride ++ samples.drop cfg.N =
      samples.drop cfg.stride := by
    conv_rhs => rw [← hAB]
    rw [List.drop_append_eq_append_drop]
    have hz : cfg.stride - (samples.take cfg.N).length = 0 := by
      rw [hAlen]
      omega
    rw [hz, List.drop_zero]
  have hchW2 : ((samples.take cfg.N).drop cfg.stride ++ samples.drop cfg.N).Chain'
      (okStep cfg) := by
    rw [hAd]
    exact hgood.drop _
  have hlenW2 : ((samples.take cfg.N).drop cfg.stride ++ samples.drop cfg.N).length
      = cfg.N := by
    simp only [List.length_append, List.length_drop, hAlen, hBlen]
    omega
  have hBne : samples.drop cfg.N ≠ [] := by
    intro hc
    rw [hc] at hBlen
    simp at hBlen
    omega
  have h2 : runBuffer cfg ((samples.take cfg.N).drop cfg.stride) (samples.drop cfg.N) =
      (((samples.take cfg.N).drop cfg.stride ++ samples.drop cfg.N).drop cfg.stride,
        [(samples.take cfg.N).drop cfg.stride ++ samples.drop cfg.N]) :=
    runBuffer_seal cfg (samples.drop cfg.N) ((samples.take cfg.N).drop cfg.stride)
      hBne hchW2 hlenW2
  refine ⟨samples.take cfg.N,
    (samples.take cfg.N).drop cfg.stride ++ samples.drop cfg.N, ?_, hAlen, hlenW2, ?_⟩
  · conv_lhs => rw [← hAB]
    rw [runBuffer_append, h1]
    simp [h2]
  · have hdl : ((samples.take cfg.N).drop cfg.stride).length = cfg.N - cfg.stride := by
      rw [List.length_drop, hAlen]
    rw [← hdl, List.take_left]

/-- Witness for C1: with N = 4, stride 2 and maxGap 10, pushing the six
gap-free samples at timestamps 0..5 yields two windows of length 4
overlapping on 2 samples. -/
theorem C1_two_overlapping_windows_witness :
    ∃ w1 w2,
      (runBuffer ⟨4, 2, 10⟩ []
        [mkSample 0, mkSample 1, mkSample 2, mkSample 3, mkSample 4, mkSample 5]).2
        = [w1, w2] ∧
      w1.length = 4 ∧ w2.length = 4 ∧ w2.take (4 - 2) = w1.drop 2 :=
  C1_two_overlapping_windows ⟨4, 2, 10⟩ (by norm_num) (by norm_num)
    [mkSample 0, mkSample 1, mkSample 2, mkSample 3, mkSample 4, mkSample 5]
    (by simp)
    (by
      simp only [List.chain'_cons, List.chain'_singleton, and_true]
      norm_num [okStep, mkSample])

/-- C2: a timestamp regression or an excessive gap at a push discards
the partial contents and restarts with the offending sample, and
consequently every sealed window satisfies the adjacency constraint
between each pair of consecutive samples: no sealed window ever spans a
regression or a gap larger than maxGap. -/
theorem C2_no_window_spans_gap (cfg : SWConfig) :
    (∀ (buf : List Sample) (prev s : Sample), buf.getLast? = some prev →
      ¬ okStep cfg prev s → pushSample cfg buf s = ([s], none)) ∧
    (∀ (samples w : List Sample), w ∈ (runBuffer cfg [] samples).2 →
      w.Chain' (okStep cfg)) := by
  constructor
  · intro buf prev s hl hok
    unfold pushSample
    rw [hl]
    exact if_neg hok
  · intro samples w hw
    exact (runBuffer_windows_chain cfg samples [] (by simp)).1 w hw

/-- Witness for C2: with N = 2, stride 1 and maxGap 5, a push jumping
from timestamp 0 to 100 resets the buffer, and the single sealed window
from the stream [0, 100, 101] is the gap-free [100, 101]. -/
theorem C2_no_window_spans_gap_witness :
    pushSample ⟨2, 1, 5⟩ [mkSample 0] (mkSample 100) = ([mkSample 100], none) ∧
    [mkSample 100, mkSample 101].Chain' (okStep ⟨2, 1, 5⟩) := by
  constructor
  · exact (C2_no_window_spans_gap ⟨2, 1, 5⟩).1 [mkSample 0] (mkSample 0)
      (mkSample 100) rfl (by norm_num [okStep, mkSample])
  · refine (C2_no_window_spans_gap ⟨2, 1, 5⟩).2
      [mkSample 0, mkSample 100, mkSample 101] [mkSample 100, mkSample 101] ?_
    norm_num [runBuffer, pushSample, appendSeal, okStep, mkSample]

/-! ## Claim theorems about the Decision Policy (modelled from the spec) -/

/-- C3: with debounce count K = 3 the policy maps the confident
sequence [Dangerous, Normal, Normal, Normal] to accepted states
[Dangerous, Dangerous, Dangerous, Normal], maps the upgrade sequence
[Normal, Dangerous] to [Normal, Dangerous], a confident transition to a
more severe class fires immediately from any state, and a confident
transition to a less severe class is accepted only after 3 consecutive
confident predictions of the new class. -/
theorem C3_debounce :
    policyOutputs defaultPolicyConfig initPolicyState
        [⟨.dangerous, 1⟩, ⟨.normal, 1⟩, ⟨.normal, 1⟩, ⟨.normal, 1⟩] =
      [some .dangerous, some .dangerous, some .dangerous, some .normal] ∧
    policyOutputs defaultPolicyConfig initPolicyState
        [⟨.normal, 1⟩, ⟨.dangerous, 1⟩] = [some .normal, some .dangerous] ∧
    (∀ (st : PolicyState) (a : BClass) (p : Prediction),
      st.accepted = some a → defaultPolicyConfig.threshold ≤ p.conf →
      sevRank a < sevRank p.cls →
      (stepPred defaultPolicyConfig st p).accepted = some p.cls) ∧
    (∀ a c : BClass, sevRank c < sevRank a →
      (∀ j < 3, (confSteps defaultPolicyConfig a c j).accepted = some a) ∧
      (confSteps defaultPolicyConfig a c 3).accepted = some c) := by
  refine ⟨?_, ?_, ?_, ?_⟩
  · simp [policyOutputs, stepPred, defaultPolicyConfig, initPolicyState, sevRank,
      show ¬((1 : ℚ) < 7 / 10) from by norm_num]
  · simp [policyOutputs, stepPred, defaultPolicyConfig, initPolicyState, sevRank,
      show ¬((1 : ℚ) < 7 / 10) from by norm_num]
  · intro st a p hacc hconf hlt
    have hne : p.cls ≠ a := by
      intro hc
      rw [hc] at hlt
      exact lt_irrefl _ hlt
    unfold stepPred
    rw [if_neg (not_lt.mpr hconf), hacc]
    simp [hne, hlt]
  · intro a c h
    constructor
    · intro j hj
      interval_cases j <;> cases a <;> cases c <;>
        simp_all [confSteps, stepPred, defaultPolicyConfig, sevRank,
          show ¬((1 : ℚ) < 7 / 10) from by norm_num]
    · cases a <;> cases c <;>
        simp_all [confSteps, stepPred, defaultPolicyConfig, sevRank,
          show ¬((1 : ℚ) < 7 / 10) from by norm_num]

/-- Witness for C3: a confident upgrade from Normal fires immediately;
from accepted Dangerous, two confident Normal predictions do not
downgrade but the third does. -/
theorem C3_debounce_witness :
    (stepPred defaultPolicyConfig ⟨some .normal, none, 0, 0⟩
      ⟨.dangerous, 1⟩).accepted = some .dangerous ∧
    (confSteps defaultPolicyConfig .dangerous .normal 2).accepted = some .dangerous ∧
    (confSteps defaultPolicyConfig .dangerous .normal 3).accepted = some .normal :=
  ⟨C3_debounce.2.2.1 ⟨some .normal, none, 0, 0⟩ .normal ⟨.dangerous, 1⟩ rfl
      (by norm_num [defaultPolicyConfig]) (by simp [sevRank]),
   (C3_debounce.2.2.2 .dangerous .normal (by simp [sevRank])).1 2 (by norm_num),
   (C3_debounce.2.2.2 .dangerous .normal (by simp [sevRank])).2⟩

/-- C4: a Prediction whose top-class confidence is strictly below the
threshold leaves the policy state (in particular the accepted state)
unchanged, and after any run consisting only of low-confidence
predictions the policy is still in the Holding state. -/
theorem C4_low_confidence_holds :
    (∀ (cfg : PolicyConfig) (st : PolicyState) (p : Prediction),
      p.conf < cfg.threshold → stepPred cfg st p = st) ∧
    (∀ (cfg : PolicyConfig) (preds : List Prediction),
      (∀ p ∈ preds, p.conf < cfg.threshold) →
      (preds.foldl (stepPred cfg) initPolicyState).accepted = none) := by
  refine ⟨stepPred_low, ?_⟩
  intro cfg preds h
  rw [foldl_stepPred_low cfg preds initPolicyState h]
  rfl

/-- Witness for C4: a Dangerous prediction at confidence 0.55 with
threshold 0.70 changes nothing, and two such predictions from the start
leave the policy Holding. -/
theorem C4_low_confidence_holds_witness :
    stepPred defaultPolicyConfig ⟨some .normal, none, 0, 0⟩ ⟨.dangerous, 11 / 20⟩ =
      ⟨some .normal, none, 0, 0⟩ ∧
    ([⟨.dangerous, 11 / 20⟩, ⟨.aggressive, 1 / 2⟩].foldl
      (stepPred defaultPolicyConfig) initPolicyState).accepted = none :=
  ⟨C4_low_confidence_holds.1 defaultPolicyConfig ⟨some .normal, none, 0, 0⟩
      ⟨.dangerous, 11 / 20⟩ (by norm_num [defaultPolicyConfig]),
   C4_low_confidence_holds.2 defaultPolicyConfig
      [⟨.dangerous, 11 / 20⟩, ⟨.aggressive, 1 / 2⟩]
      (by
        intro p hp
        rcases List.mem_cons.mp hp with hp | hp
        · rw [hp]; norm_num [defaultPolicyConfig]
        · rcases List.mem_cons.mp hp with hp | hp
          · rw [hp]; norm_num [defaultPolicyConfig]
          · simp at hp)⟩

/-- C6: the Verdict severity is derived from the accepted state by the
fixed mapping Normal to low, Moderate to moderate, Aggressive to high,
Dangerous to high, and every emitted severity value is one of low,
moderate, high. -/
theorem C6_verdict_severity :
    severityOf .normal = "low" ∧ severityOf .moderate = "moderate" ∧
    severityOf .aggressive = "high" ∧ severityOf .dangerous = "high" ∧
    (∀ (cfg : PolicyConfig) (st : PolicyState) (c : BClass),
      st.accepted = some c → (mkVerdict cfg st).severity = severityOf c) ∧
    (∀ (cfg : PolicyConfig) (st : PolicyState),
      (mkVerdict cfg st).severity ∈ ["low", "moderate", "high"]) := by
  refine ⟨rfl, rfl, rfl, rfl, ?_, ?_⟩
  · intro cfg st c hacc
    simp [mkVerdict, hacc]
  · intro cfg st
    rcases hst : st.accepted with _ | c
    · simp [mkVerdict, hst]
    · cases c <;> simp [mkVerdict, hst, severityOf]

/-- Witness for C6: with accepted state Aggressive the emitted Verdict
severity is high. -/
theorem C6_verdict_severity_witness :
    (mkVerdict defaultPolicyConfig ⟨some .aggressive, none, 0, 0⟩).severity =
      severityOf .aggressive :=
  C6_verdict_severity.2.2.2.2.1 defaultPolicyConfig ⟨some .aggressive, none, 0, 0⟩
    .aggressive rfl

/-- C7: an InferenceError cycle keeps the accepted state and increments
the missed-cycle counter; n consecutive error cycles keep the accepted
state and add n; and from a state with no missed cycles, after
stale_threshold consecutive InferenceErrors the emitted Verdict is
flagged stale while still carrying the held accepted state. -/
theorem C7_stale_verdict :
    (∀ st : PolicyState,
      (stepErr st).accepted = st.accepted ∧ (stepErr st).missed = st.missed + 1) ∧
    (∀ (n : Nat) (st : PolicyState),
      (errSteps n st).accepted = st.accepted ∧
      (errSteps n st).missed = st.missed + n) ∧
    (∀ (cfg : PolicyConfig) (st : PolicyState), st.missed = 0 →
      (mkVerdict cfg (errSteps cfg.staleThreshold st)).stale = true ∧
      (mkVerdict cfg (errSteps cfg.staleThreshold st)).accepted = st.accepted) := by
  refine ⟨fun st => ⟨rfl, rfl⟩, errSteps_accepted_missed, ?_⟩
  intro cfg st h0
  have h := errSteps_accepted_missed cfg.staleThreshold st
  refine ⟨?_, ?_⟩
  · simp only [mkVerdict, h.2, h0, Nat.zero_add, decide_eq_true_eq, le_refl]
  · simp only [mkVerdict, h.1]

/-- Witness for C7: three consecutive InferenceErrors from the initial
state under the default configuration yield a stale Verdict. -/
theorem C7_stale_verdict_witness :
    (mkVerdict defaultPolicyConfig
      (errSteps defaultPolicyConfig.staleThreshold initPolicyState)).stale = true ∧
    (mkVerdict defaultPolicyConfig
      (errSteps defaultPolicyConfig.staleThreshold initPolicyState)).accepted = none :=
  C7_stale_verdict.2.2 defaultPolicyConfig initPolicyState rfl

end DriverAssist
